import Mathlib

/-!
Verification development for the `kimep_classrooms` schedule-normalization
program (`src/kimep_classrooms.py`).  Python strings are modelled as
`List Char`; a pandas cell that may be NaN is modelled as `Option (List Char)`
(`none` = NaN / non-string).  Python `int` values are modelled as `Int`
(Python integers are unbounded).  Fallible parsing returns `Option`.
-/

/-- Characters stripped by Python's `str.strip()` / `int()` (ASCII whitespace). -/
def pyWs (c : Char) : Bool :=
  c = ' ' || c = '\t' || c = '\n' || c = '\r' || c = '\x0b' || c = '\x0c'

/-- Python `str.strip()`: drop whitespace from both ends. -/
def pyStrip (l : List Char) : List Char :=
  ((l.dropWhile pyWs).reverse.dropWhile pyWs).reverse

/-- Digit-string value accumulator for Python `int()`: digits, with single
underscores allowed between digits (Python 3.6+ numeric literals). -/
def digitsCore (acc : Nat) : List Char → Option Nat
  | [] => some acc
  | '_' :: rest =>
    match rest with
    | d :: rest2 =>
      if d.isDigit then digitsCore (acc * 10 + (d.toNat - '0'.toNat)) rest2 else none
    | [] => none
  | c :: rest =>
    if c.isDigit then digitsCore (acc * 10 + (c.toNat - '0'.toNat)) rest else none

/-- Unsigned part of Python `int()`: a nonempty digit string. -/
def pyNat : List Char → Option Nat
  | [] => none
  | c :: rest => if c.isDigit then digitsCore (c.toNat - '0'.toNat) rest else none

/-- Python `int(s)`: strip whitespace, optional sign, digits. -/
def pyInt (l : List Char) : Option Int :=
  match pyStrip l with
  | [] => none
  | c :: rest =>
    if c = '+' then (pyNat rest).map (fun n => (n : Int))
    else if c = '-' then (pyNat rest).map (fun n => -(n : Int))
    else (pyNat (c :: rest)).map (fun n => (n : Int))

/-- Helper for `pySplitOn`: prepend a character to the first piece. -/
def consHead (a : Char) : List (List Char) → List (List Char)
  | [] => [[a]]
  | t :: ts => (a :: t) :: ts

/-- Python `s.split(sep)` for a one-character separator: splits on every
occurrence, keeping empty pieces (`"::".split(":") == ["", "", ""]`). -/
def pySplitOn (c : Char) : List Char → List (List Char)
  | [] => [[]]
  | a :: as => if a = c then [] :: pySplitOn c as else consHead a (pySplitOn c as)

/-- Python `s.split(sep, 1)` for a one-character separator that is known to
occur in `s`: the piece before the first occurrence and everything after it. -/
def splitFirst (sep : Char) : List Char → List Char × List Char
  | [] => ([], [])
  | a :: as =>
    if a = sep then ([], as)
    else (a :: (splitFirst sep as).1, (splitFirst sep as).2)

/-- Does `l` start with `pat`? -/
def startsWithL : List Char → List Char → Bool
  | [], _ => true
  | _ :: _, [] => false
  | p :: ps, a :: as => p = a && startsWithL ps as

/-- Python's substring operator `pat in l`. -/
def containsSub (pat : List Char) : List Char → Bool
  | [] => startsWithL pat []
  | a :: rest => startsWithL pat (a :: rest) || containsSub pat rest

/-- `to_minutes` (src line 10): split on ":", exactly two integer parts,
value `int(h) * 60 + int(m)`; `none` models the exception path. -/
def to_minutes (t : List Char) : Option Int :=
  match pySplitOn ':' t with
  | [h, m] =>
    match pyInt h, pyInt m with
    | some hv, some mv => some (hv * 60 + mv)
    | _, _ => none
  | _ => none

/-- Lines 32-44 of `parse_interval_smart`: the wraparound correction of the
mutable `end`/`fixed` variables followed by the duration check, given
successfully parsed start and end minute values. -/
def wraparound_check (start e : Int) : Option Int × Option Int × Bool × String :=
  let e1 := if e ≤ start then e + 720 else e
  let fixed1 := if e ≤ start then true else false
  let e2 := if e1 ≤ start then e1 + 1440 else e1
  let fixed2 := if e1 ≤ start then true else fixed1
  let duration := e2 - start
  if duration > 300 then
    (some start, some e2, false,
      "Duration too long (" ++ toString duration ++ " min)")
  else (some start, some e2, fixed2, "")

/-- `parse_interval_smart` (src line 14).  Input `none` models a non-string
value.  Result is `(Start_Min, End_Min, AutoFixed, ErrorMessage)` exactly in
the order the Python function returns them. -/
def parse_interval_smart (interval : Option (List Char)) :
    Option Int × Option Int × Bool × String :=
  match interval with
  | none => (none, none, false, "Non-string interval")
  | some s =>
    let cleaned := s.filter (fun c => c != ' ')
    if !(containsSub ['-'] cleaned) then (none, none, false, "Missing dash")
    else if containsSub ("ONLINE".toList) (cleaned.map Char.toUpper)
         || containsSub ("TBA".toList) (cleaned.map Char.toUpper) then
      (none, none, false, "Non-time entry")
    else
      match to_minutes (splitFirst '-' cleaned).1,
            to_minutes (splitFirst '-' cleaned).2 with
      | some start, some e => wraparound_check start e
      | _, _ => (none, none, false, "Bad time format")

/-- `DAY_TOKEN_MAP` (src line 51) as a lookup function. -/
def DAY_TOKEN_MAP (t : List Char) : Option String :=
  if t = ['M'] then some "Mon"
  else if t = ['T'] then some "Tue"
  else if t = ['W'] then some "Wed"
  else if t = ['T', 'h'] then some "Thu"
  else if t = ['F'] then some "Fri"
  else if t = ['S', 't'] then some "Sat"
  else if t = ['S', 'n'] then some "Sun"
  else none

/-- The tokenizing loop of `decode_days` (src lines 66-74): consume two
characters when they are "Th", "St" or "Sn", otherwise one. -/
def day_tokens : List Char → List (List Char)
  | a :: b :: rest =>
    if [a, b] = ['T', 'h'] ∨ [a, b] = ['S', 't'] ∨ [a, b] = ['S', 'n'] then
      [a, b] :: day_tokens rest
    else [a] :: day_tokens (b :: rest)
  | [a] => [[a]]
  | [] => []

/-- First-occurrence deduplication with an accumulator of already-seen
elements; models Python's `dict.fromkeys` duplicate removal. -/
def dedupSeen {α : Type} [DecidableEq α] (seen : List α) : List α → List α
  | [] => []
  | a :: as => if a ∈ seen then dedupSeen seen as else a :: dedupSeen (a :: seen) as

/-- `list(dict.fromkeys(days))` (src line 77): keep first occurrences. -/
def dedupFirst {α : Type} [DecidableEq α] (l : List α) : List α :=
  dedupSeen [] l

/-- `decode_days` (src line 61).  `none` input models a non-string value. -/
def decode_days (code : Option (List Char)) : List String :=
  match code with
  | none => []
  | some c0 =>
    let c := pyStrip c0
    let days := (day_tokens c).filterMap DAY_TOKEN_MAP
    dedupFirst days

/-- One raw input row; each cell is `none` when the spreadsheet cell is
missing (pandas NaN). -/
structure RawRow where
  days : Option (List Char)
  class_times : Option (List Char)
  hall : Option (List Char)
deriving DecidableEq

/-- The input table: three flags for the presence of the required columns,
plus the rows. -/
structure RawTable where
  has_days : Bool
  has_class_times : Bool
  has_hall : Bool
  rows : List RawRow
deriving DecidableEq

/-- pandas `Series.astype(str)`: a NaN cell becomes the literal string
`"nan"`; afterwards the series contains no NaN. -/
def astype_str (c : Option (List Char)) : Option (List Char) :=
  some (match c with | none => "nan".toList | some s => s)

/-- pandas `Series.fillna(v)`: replaces NaN cells by `v`. -/
def fillna (v : List Char) (c : Option (List Char)) : Option (List Char) :=
  match c with
  | none => some v
  | some s => some s

/-- Read a cell known to be non-NaN (modelling artifact: after `astype(str)`
every cell is a string). -/
def getCell (c : Option (List Char)) : List Char := c.getD []

/-- The `Class_Times` text normalization of `preprocess_data` (src lines
94-101): en dash and em dash to "-", "." to ":", remove spaces. -/
def normalize_times (l : List Char) : List Char :=
  ((((l.map (fun c => if c = '–' then '-' else c)).map
      (fun c => if c = '—' then '-' else c)).map
      (fun c => if c = '.' then ':' else c)).filter (fun c => c != ' '))

/-- One normalized row: the augmented columns `preprocess_data` builds. -/
structure NormRow where
  days : List Char
  class_times : List Char
  hall : List Char
  start_min : Option Int
  end_min : Option Int
  auto_fixed : Bool
  error_message : String
  duration : Option Int
  start_hour : Option Int
  day_list : List String
deriving DecidableEq

/-- The per-row work of `preprocess_data` (src lines 91-109): column
transformations, the smart parse, and the derived columns `Duration`
(`End_Min - Start_Min`, NaN-propagating) and `Start_Hour`
(`Start_Min // 60`, floor division, NaN-propagating). -/
def normalize_row (r : RawRow) : NormRow :=
  let days := pyStrip (getCell (astype_str r.days))
  let hall := getCell (fillna ("UNKNOWN".toList) (astype_str r.hall))
  let ct := normalize_times (getCell (astype_str r.class_times))
  let p := parse_interval_smart (some ct)
  { days := days
    class_times := ct
    hall := hall
    start_min := p.1
    end_min := p.2.1
    auto_fixed := p.2.2.1
    error_message := p.2.2.2
    duration :=
      match p.1, p.2.1 with
      | some a, some b => some (b - a)
      | _, _ => none
    start_hour :=
      match p.1 with
      | some a => some (Int.fdiv a 60)
      | none => none
    day_list := decode_days (some days) }

/-- `preprocess_data` (src line 84).  The first component models the
`st.error` message surfaced to the caller when a required column is missing
(`none` = no configuration error); the second and third are the valid and
invalid partitions. -/
def preprocess_data (df : RawTable) :
    Option String × List NormRow × List NormRow :=
  if !(df.has_days && df.has_class_times && df.has_hall) then
    (some "Dataset must contain columns: Days, Class_Times, Hall", [], [])
  else
    let rows := df.rows.map normalize_row
    (none,
      rows.filter (fun r => r.error_message = ""),
      rows.filter (fun r => !(r.error_message = "")))

/-- `get_availability` (src line 137): rows of the valid partition on the
given weekday whose interval contains `hour * 60` (pandas comparisons with
NaN are false, hence the `match`), and the halls not occupied by them.
`dedupFirst` models pandas `Series.unique()` (first-occurrence order). -/
def get_availability (df_valid : List NormRow) (weekday : String) (hour : Int) :
    List (List Char) × List NormRow :=
  let minute := hour * 60
  let df_day := df_valid.filter (fun r => r.day_list.contains weekday)
  let occupied := df_day.filter (fun r =>
    match r.start_min, r.end_min with
    | some a, some b => decide (a ≤ minute) && decide (minute < b)
    | _, _ => false)
  let all_halls := dedupFirst (df_valid.map (fun r => r.hall))
  let occupied_halls := dedupFirst (occupied.map (fun r => r.hall))
  let available := all_halls.filter (fun h => !(occupied_halls.contains h))
  (available, occupied)

-- sanity examples (computational checks of the embedding)
example : to_minutes ("9:00".toList) = some 540 := by decide
example : parse_interval_smart (some ("9:00-10:30".toList)) =
    (some 540, some 630, false, "") := by decide
example : parse_interval_smart (some ("9:00-8:00".toList)) =
    (some 540, some 1200, false, "Duration too long (660 min)") := by decide
example : parse_interval_smart (some ("TBA".toList)) =
    (none, none, false, "Missing dash") := by decide
example : parse_interval_smart (some ("tba-x".toList)) =
    (none, none, false, "Non-time entry") := by decide
example : parse_interval_smart (some ("99:00-1:00".toList)) =
    (some 5940, some 2220, true, "") := by decide
example : decode_days (some ("MTThF".toList)) = ["Mon", "Tue", "Thu", "Fri"] := by decide
example : decode_days (some ("StSn".toList)) = ["Sat", "Sun"] := by decide
example : decode_days (some ("MWM".toList)) = ["Mon", "Wed"] := by decide

/-! ### Helper lemmas -/

lemma mem_of_mem_pyStrip {x : Char} {l : List Char} (h : x ∈ pyStrip l) : x ∈ l := by
  unfold pyStrip at h
  rw [List.mem_reverse] at h
  have h2 := (List.dropWhile_sublist (l := (l.dropWhile pyWs).reverse) pyWs).mem h
  rw [List.mem_reverse] at h2
  exact (List.dropWhile_sublist pyWs).mem h2

lemma splitFirst_fst_not_mem (sep : Char) (l : List Char) :
    sep ∉ (splitFirst sep l).1 := by
  induction l with
  | nil => simp [splitFirst]
  | cons a as ih =>
    by_cases h : a = sep
    · simp [splitFirst, h]
    · simp only [splitFirst, if_neg h, List.mem_cons]
      rintro (rfl | hm)
      · exact h rfl
      · exact ih hm

lemma mem_of_mem_pySplitOn {c : Char} {l : List Char} :
    ∀ p ∈ pySplitOn c l, ∀ x ∈ p, x ∈ l := by
  induction l with
  | nil =>
    intro p hp x hx
    simp [pySplitOn] at hp
    subst hp
    simp at hx
  | cons a as ih =>
    intro p hp x hx
    by_cases h : a = c
    · simp only [pySplitOn, if_pos h, List.mem_cons] at hp
      rcases hp with rfl | hp
      · simp at hx
      · exact List.mem_cons_of_mem a (ih p hp x hx)
    · simp only [pySplitOn, if_neg h] at hp
      cases hrec : pySplitOn c as with
      | nil => rw [hrec] at hp; simp [consHead] at hp; subst hp; simp at hx; simp [hx]
      | cons t ts =>
        rw [hrec] at hp
        simp only [consHead, List.mem_cons] at hp
        rcases hp with rfl | hp
        · rcases List.mem_cons.mp hx with rfl | hx2
          · exact List.mem_cons_self x as
          · have ht : t ∈ pySplitOn c as := by rw [hrec]; exact List.mem_cons_self t ts
            exact List.mem_cons_of_mem a (ih t ht x hx2)
        · have hts : p ∈ pySplitOn c as := by rw [hrec]; exact List.mem_cons_of_mem t hp
          exact List.mem_cons_of_mem a (ih p hts x hx)

lemma pyInt_nonneg {l : List Char} {n : Int}
    (hn : pyInt l = some n) (hm : '-' ∉ l) : 0 ≤ n := by
  unfold pyInt at hn
  cases hs : pyStrip l with
  | nil => rw [hs] at hn; exact absurd hn (by simp)
  | cons c rest =>
    rw [hs] at hn
    dsimp only at hn
    by_cases hplus : c = '+'
    · rw [if_pos hplus] at hn
      cases hpn : pyNat rest with
      | none => rw [hpn] at hn; exact absurd hn (by simp)
      | some k => rw [hpn] at hn; simp at hn; omega
    · rw [if_neg hplus] at hn
      by_cases hminus : c = '-'
      · exfalso
        apply hm
        apply mem_of_mem_pyStrip
        rw [hs, hminus]
        exact List.mem_cons_self '-' rest
      · rw [if_neg hminus] at hn
        cases hpn : pyNat (c :: rest) with
        | none => rw [hpn] at hn; exact absurd hn (by simp)
        | some k => rw [hpn] at hn; simp at hn; omega

lemma to_minutes_nonneg {t : List Char} {v : Int}
    (hv : to_minutes t = some v) (hm : '-' ∉ t) : 0 ≤ v := by
  unfold to_minutes at hv
  cases hs : pySplitOn ':' t with
  | nil => rw [hs] at hv; exact absurd hv (by simp)
  | cons p1 ps =>
    cases ps with
    | nil => rw [hs] at hv; exact absurd hv (by simp)
    | cons p2 ps2 =>
      cases ps2 with
      | cons _ _ => rw [hs] at hv; exact absurd hv (by simp)
      | nil =>
        rw [hs] at hv
        simp only at hv
        cases h1 : pyInt p1 with
        | none => rw [h1] at hv; exact absurd hv (by simp)
        | some hv0 =>
          cases h2 : pyInt p2 with
          | none => rw [h1, h2] at hv; exact absurd hv (by simp)
          | some mv0 =>
            rw [h1, h2] at hv
            simp at hv
            have hp1 : p1 ∈ pySplitOn ':' t := by rw [hs]; exact List.mem_cons_self _ _
            have hp2 : p2 ∈ pySplitOn ':' t := by
              rw [hs]; exact List.mem_cons_of_mem _ (List.mem_cons_self _ _)
            have hn1 : '-' ∉ p1 := fun hc => hm (mem_of_mem_pySplitOn p1 hp1 '-' hc)
            have hn2 : '-' ∉ p2 := fun hc => hm (mem_of_mem_pySplitOn p2 hp2 '-' hc)
            have := pyInt_nonneg h1 hn1
            have := pyInt_nonneg h2 hn2
            omega

lemma mem_dedupSeen {α : Type} [DecidableEq α] (x : α) :
    ∀ (l seen : List α), x ∈ dedupSeen seen l ↔ x ∈ l ∧ x ∉ seen := by
  intro l
  induction l with
  | nil => intro seen; simp [dedupSeen]
  | cons a as ih =>
    intro seen
    by_cases ha : a ∈ seen
    · rw [show dedupSeen seen (a :: as) = dedupSeen seen as by simp [dedupSeen, ha]]
      rw [ih seen]
      constructor
      · rintro ⟨h1, h2⟩; exact ⟨List.mem_cons_of_mem a h1, h2⟩
      · rintro ⟨h1, h2⟩
        rcases List.mem_cons.mp h1 with rfl | h3
        · exact absurd ha h2
        · exact ⟨h3, h2⟩
    · rw [show dedupSeen seen (a :: as) = a :: dedupSeen (a :: seen) as by
        simp [dedupSeen, ha]]
      constructor
      · intro h
        rcases List.mem_cons.mp h with rfl | h2
        · exact ⟨List.mem_cons_self x as, ha⟩
        · rcases (ih (a :: seen)).mp h2 with ⟨h3, h4⟩
          refine ⟨List.mem_cons_of_mem a h3, fun hc => h4 (List.mem_cons_of_mem a hc)⟩
      · rintro ⟨h1, h2⟩
        rcases List.mem_cons.mp h1 with rfl | h3
        · exact List.mem_cons_self x _
        · by_cases hxa : x = a
          · subst hxa; exact List.mem_cons_self x _
          · refine List.mem_cons_of_mem a ((ih (a :: seen)).mpr ⟨h3, ?_⟩)
            intro hc
            rcases List.mem_cons.mp hc with h5 | h5
            · exact hxa h5
            · exact h2 h5

lemma mem_dedupFirst {α : Type} [DecidableEq α] (x : α) (l : List α) :
    x ∈ dedupFirst l ↔ x ∈ l := by
  rw [dedupFirst, mem_dedupSeen]
  simp

lemma nodup_dedupSeen {α : Type} [DecidableEq α] :
    ∀ (l seen : List α), (dedupSeen seen l).Nodup := by
  intro l
  induction l with
  | nil => intro seen; simp [dedupSeen]
  | cons a as ih =>
    intro seen
    by_cases ha : a ∈ seen
    · rw [show dedupSeen seen (a :: as) = dedupSeen seen as by simp [dedupSeen, ha]]
      exact ih seen
    · rw [show dedupSeen seen (a :: as) = a :: dedupSeen (a :: seen) as by
        simp [dedupSeen, ha]]
      refine List.nodup_cons.mpr ⟨?_, ih (a :: seen)⟩
      intro hc
      exact ((mem_dedupSeen a as (a :: seen)).mp hc).2 (List.mem_cons_self a seen)

lemma nodup_dedupFirst {α : Type} [DecidableEq α] (l : List α) :
    (dedupFirst l).Nodup :=
  nodup_dedupSeen l []

lemma contains_eq_mem_iff {α : Type} [DecidableEq α] (l : List α) (x : α) :
    l.contains x = true ↔ x ∈ l := by
  simp [List.contains, List.elem_iff]

lemma filter_length_partition {α : Type} (p : α → Bool) (l : List α) :
    (l.filter p).length + (l.filter (fun a => !(p a))).length = l.length := by
  induction l with
  | nil => simp
  | cons a as ih =>
    cases hpa : p a <;> simp [List.filter_cons, hpa] <;> omega

lemma filter_count_partition {α : Type} [DecidableEq α] (p : α → Bool)
    (l : List α) (x : α) :
    (l.filter p).count x + (l.filter (fun a => !(p a))).count x = l.count x := by
  induction l with
  | nil => simp
  | cons a as ih =>
    cases hpa : p a with
    | false =>
      simp only [List.filter_cons, hpa, Bool.not_false, if_neg, if_pos, cond_true,
        cond_false, Bool.false_eq_true, not_false_eq_true, List.count_cons, if_true]
      split <;> omega
    | true =>
      simp only [List.filter_cons, hpa, Bool.not_true, if_neg, if_pos, cond_true,
        cond_false, Bool.false_eq_true, not_false_eq_true, List.count_cons, if_true]
      split <;> omega

lemma filter_filter_and {α : Type} (p q : α → Bool) (l : List α) :
    (l.filter p).filter q = l.filter (fun a => p a && q a) := by
  induction l with
  | nil => simp
  | cons a as ih =>
    cases hpa : p a <;> cases hqa : q a <;>
      simp [List.filter_cons, hpa, hqa, ih]

/-- The head character of every "Duration too long" message is `D`. -/
lemma durStr_head (d : Int) :
    ("Duration too long (" ++ toString d ++ " min)").data.head? = some 'D' := rfl

lemma ne_durStr_of_head {s : String} (h : s.data.head? ≠ some 'D') (d : Int) :
    s ≠ "Duration too long (" ++ toString d ++ " min)" := by
  intro heq
  exact h (heq ▸ durStr_head d)


/-- Closed form of the wraparound correction stage: the returned end value is
obtained from the parsed end by the staged additions of 720 and then 1440
minutes, the corrected flag is reported only on acceptance, and the duration
check decides between acceptance and the parametric rejection. -/
lemma wraparound_check_spec (s0 e0 : Int) :
    wraparound_check s0 e0 =
      (some s0,
       some (if e0 ≤ s0 then (if e0 + 720 ≤ s0 then e0 + 2160 else e0 + 720) else e0),
       (if (if e0 ≤ s0 then (if e0 + 720 ≤ s0 then e0 + 2160 else e0 + 720) else e0)
             - s0 > 300 then false else decide (e0 ≤ s0)),
       (if (if e0 ≤ s0 then (if e0 + 720 ≤ s0 then e0 + 2160 else e0 + 720) else e0)
             - s0 > 300 then
          "Duration too long (" ++
            toString ((if e0 ≤ s0 then (if e0 + 720 ≤ s0 then e0 + 2160 else e0 + 720)
              else e0) - s0) ++ " min)"
        else "")) := by
  unfold wraparound_check
  by_cases h1 : e0 ≤ s0
  · by_cases h2 : e0 + 720 ≤ s0
    · have he : e0 + 720 + 1440 = e0 + 2160 := by ring
      simp only [if_pos h1, if_pos h2, he]
      by_cases hdur : (300 : Int) < e0 + 2160 - s0 <;> simp [hdur, h1]
    · simp only [if_pos h1, if_neg h2]
      by_cases hdur : (300 : Int) < e0 + 720 - s0 <;> simp [hdur, h1]
  · have h2 : ¬(e0 + 720 ≤ s0) := by omega
    simp only [if_neg h1, if_neg h2]
    by_cases hdur : (300 : Int) < e0 - s0 <;> simp [hdur, h1]

/-- Master case analysis of `parse_interval_smart`: every result is either a
fully-null rejection with one of the four fixed reasons, or carries parsed
start/end minutes with nonnegative start, split between acceptance (duration
at most 300) and the parametric "Duration too long" rejection. -/
lemma parse_shape (i : Option (List Char)) :
    ((parse_interval_smart i).1 = none ∧ (parse_interval_smart i).2.1 = none ∧
      (parse_interval_smart i).2.2.1 = false ∧
      ((parse_interval_smart i).2.2.2 = "Non-string interval" ∨
       (parse_interval_smart i).2.2.2 = "Missing dash" ∨
       (parse_interval_smart i).2.2.2 = "Non-time entry" ∨
       (parse_interval_smart i).2.2.2 = "Bad time format"))
  ∨ (∃ a b : Int, (parse_interval_smart i).1 = some a ∧
      (parse_interval_smart i).2.1 = some b ∧ 0 ≤ a ∧
      ((b - a ≤ 300 ∧ (parse_interval_smart i).2.2.2 = "") ∨
       (b - a > 300 ∧ (parse_interval_smart i).2.2.1 = false ∧
        (parse_interval_smart i).2.2.2 =
          "Duration too long (" ++ toString (b - a) ++ " min)"))) := by
  cases i with
  | none => left; exact ⟨rfl, rfl, rfl, Or.inl rfl⟩
  | some s =>
    unfold parse_interval_smart
    dsimp only
    split
    · left; exact ⟨rfl, rfl, rfl, Or.inr (Or.inl rfl)⟩
    · split
      · left; exact ⟨rfl, rfl, rfl, Or.inr (Or.inr (Or.inl rfl))⟩
      · split
        · rename_i start e hm1 hm2
          have ha : (0 : Int) ≤ start := by
            apply to_minutes_nonneg hm1
            exact splitFirst_fst_not_mem '-' (s.filter (fun c => c != ' '))
          rw [wraparound_check_spec start e]
          right
          refine ⟨start,
            (if e ≤ start then (if e + 720 ≤ start then e + 2160 else e + 720) else e),
            rfl, rfl, ha, ?_⟩
          by_cases hdur : (if e ≤ start then (if e + 720 ≤ start then e + 2160 else e + 720)
              else e) - start > 300
          · right
            exact ⟨hdur, by simp [if_pos hdur], by simp [if_pos hdur]⟩
          · left
            exact ⟨by omega, by simp [if_neg hdur]⟩
        · left; exact ⟨rfl, rfl, rfl, Or.inr (Or.inr (Or.inr rfl))⟩

/-! ### Claim theorems -/

/-- Claim C1 counterexample: the input "99:00-1:00" is accepted (empty
rejection reason) yet its returned end minute 2220 is smaller than its start
minute 5940, refuting `end_minute > start_minute` for accepted intervals. -/
theorem parse_accepted_not_ordered_cex :
    parse_interval_smart (some ("99:00-1:00".toList)) = (some 5940, some 2220, true, "") ∧
    ¬((2220 : Int) > 5940) := by
  exact ⟨by decide, by decide⟩

/-- Claim C1 (amended): for every input accepted by the time-interval parser,
the returned interval satisfies `0 ≤ start_minute` and
`end_minute - start_minute ≤ 300`; the conjunct `end_minute > start_minute`
of the original claim does not hold in general. -/
theorem parse_accepted_bounds (raw : List Char) (a b : Int) (fx : Bool)
    (h : parse_interval_smart (some raw) = (some a, some b, fx, "")) :
    0 ≤ a ∧ b - a ≤ 300 := by
  rcases parse_shape (some raw) with ⟨h1, _, _, _⟩ | ⟨a', b', h1, h2, ha, hcase⟩
  · rw [h] at h1
    exact absurd h1 (by simp)
  · rw [h] at h1 h2
    simp only [Option.some.injEq] at h1 h2
    subst h1
    subst h2
    rcases hcase with ⟨hle, _⟩ | ⟨_, _, hmsg⟩
    · exact ⟨ha, hle⟩
    · rw [h] at hmsg
      dsimp only at hmsg
      exact absurd hmsg (ne_durStr_of_head (by decide) _)

/-- Witness for `parse_accepted_bounds` at the accepted input "9:00-9:30". -/
theorem parse_accepted_bounds_witness :
    (0 : Int) ≤ 540 ∧ (570 : Int) - 540 ≤ 300 :=
  parse_accepted_bounds ("9:00-9:30".toList) 540 570 false (by decide)

/-- Claim C2 counterexample: the input "TBA" contains the substring "TBA" but
has no hyphen, and the parser rejects it with "Missing dash", not with
"Non-time entry": the dash check precedes the ONLINE/TBA check. -/
theorem parse_nontime_requires_dash_cex :
    containsSub ("TBA".toList)
      ((("TBA".toList).filter (fun c => c != ' ')).map Char.toUpper) = true ∧
    parse_interval_smart (some ("TBA".toList)) = (none, none, false, "Missing dash") ∧
    ("Missing dash" : String) ≠ "Non-time entry" := by
  exact ⟨by decide, by decide, by decide⟩

/-- Claim C2 (amended): an input containing "ONLINE" or "TBA" case-insensitively
is rejected with "Non-time entry" provided it also contains a hyphen (after
space removal); the check therefore takes precedence over "Bad time format"
but not over "Missing dash". -/
theorem parse_nontime_with_dash (raw : List Char)
    (h1 : containsSub ['-'] (raw.filter (fun c => c != ' ')) = true)
    (h2 : containsSub ("ONLINE".toList)
            ((raw.filter (fun c => c != ' ')).map Char.toUpper) = true
        ∨ containsSub ("TBA".toList)
            ((raw.filter (fun c => c != ' ')).map Char.toUpper) = true) :
    parse_interval_smart (some raw) = (none, none, false, "Non-time entry") := by
  have h2' : (containsSub ("ONLINE".toList)
        ((raw.filter (fun c => c != ' ')).map Char.toUpper)
      || containsSub ("TBA".toList)
        ((raw.filter (fun c => c != ' ')).map Char.toUpper)) = true := by
    rcases h2 with h | h
    · rw [h]; rfl
    · rw [h, Bool.or_true]
  unfold parse_interval_smart
  dsimp only
  rw [h1, h2']
  simp

/-- Witness for `parse_nontime_with_dash` at the input "TBA-1". -/
theorem parse_nontime_with_dash_witness :
    parse_interval_smart (some ("TBA-1".toList)) = (none, none, false, "Non-time entry") :=
  parse_nontime_with_dash ("TBA-1".toList) (by decide) (Or.inr (by decide))

/-- Claim C3: when both sides of the (space-stripped) input parse as times,
the returned end is the parsed end plus exactly 0, 720 or 2160 minutes by the
staged wraparound rule (add 720 if end ≤ start, then 1440 more if still
≤ start), and on acceptance the corrected flag is true iff the parsed end was
≤ the parsed start; the duration check then decides acceptance. -/
theorem parse_wraparound_correction (raw : List Char) (s0 e0 : Int)
    (h1 : containsSub ['-'] (raw.filter (fun c => c != ' ')) = true)
    (h2 : containsSub ("ONLINE".toList)
        ((raw.filter (fun c => c != ' ')).map Char.toUpper) = false)
    (h3 : containsSub ("TBA".toList)
        ((raw.filter (fun c => c != ' ')).map Char.toUpper) = false)
    (h4 : to_minutes (splitFirst '-' (raw.filter (fun c => c != ' '))).1 = some s0)
    (h5 : to_minutes (splitFirst '-' (raw.filter (fun c => c != ' '))).2 = some e0) :
    ∃ b : Int,
      b = (if e0 ≤ s0 then (if e0 + 720 ≤ s0 then e0 + 2160 else e0 + 720) else e0) ∧
      (b = e0 ∨ b = e0 + 720 ∨ b = e0 + 2160) ∧
      parse_interval_smart (some raw) =
        (some s0, some b,
         (if b - s0 > 300 then false else decide (e0 ≤ s0)),
         (if b - s0 > 300 then
            "Duration too long (" ++ toString (b - s0) ++ " min)"
          else "")) := by
  refine ⟨_, rfl, ?_, ?_⟩
  · by_cases hA : e0 ≤ s0
    · by_cases hB : e0 + 720 ≤ s0
      · simp [hA, hB]
      · simp [hA, hB]
    · simp [hA]
  · have h23 : (containsSub ("ONLINE".toList)
        ((raw.filter (fun c => c != ' ')).map Char.toUpper)
      || containsSub ("TBA".toList)
        ((raw.filter (fun c => c != ' ')).map Char.toUpper)) = false := by
      rw [h2, h3]; rfl
    unfold parse_interval_smart
    dsimp only
    rw [h1, h23, h4, h5]
    simp only [Bool.not_true, Bool.false_eq_true, if_false]
    exact wraparound_check_spec s0 e0

/-- Witness for `parse_wraparound_correction` at the input "10:00-10:20". -/
theorem parse_wraparound_correction_witness :
    ∃ b : Int,
      b = (if (620 : Int) ≤ 600 then (if (620 : Int) + 720 ≤ 600 then 620 + 2160
            else 620 + 720) else 620) ∧
      (b = 620 ∨ b = 620 + 720 ∨ b = 620 + 2160) ∧
      parse_interval_smart (some ("10:00-10:20".toList)) =
        (some 600, some b,
         (if b - 600 > 300 then false else decide ((620 : Int) ≤ 600)),
         (if b - 600 > 300 then
            "Duration too long (" ++ toString (b - 600) ++ " min)"
          else "")) :=
  parse_wraparound_correction ("10:00-10:20".toList) 600 620
    (by decide) (by decide) (by decide) (by decide) (by decide)

/-- Claim C10: every "Duration too long" rejection still carries the computed
start and end minute values, and its corrected flag is false. -/
theorem duration_reject_fields (i : Option (List Char))
    (h : ∃ d : Int, (parse_interval_smart i).2.2.2 =
      "Duration too long (" ++ toString d ++ " min)") :
    (parse_interval_smart i).1.isSome = true ∧
    (parse_interval_smart i).2.1.isSome = true ∧
    (parse_interval_smart i).2.2.1 = false := by
  obtain ⟨d, hd⟩ := h
  rcases parse_shape i with ⟨_, _, _, hmsg⟩ | ⟨a, b, h1, h2, _, hcase⟩
  · rcases hmsg with h4 | h4 | h4 | h4 <;> rw [h4] at hd <;>
      exact absurd hd (ne_durStr_of_head (by decide) d)
  · rcases hcase with ⟨_, hmsg⟩ | ⟨_, hfx, _⟩
    · rw [hmsg] at hd
      exact absurd hd (ne_durStr_of_head (by decide) d)
    · exact ⟨by rw [h1]; rfl, by rw [h2]; rfl, hfx⟩

/-- Witness for `duration_reject_fields` at the input "9:00-8:00", whose
wraparound-corrected duration 660 exceeds 300. -/
theorem duration_reject_fields_witness :
    (parse_interval_smart (some ("9:00-8:00".toList))).1.isSome = true ∧
    (parse_interval_smart (some ("9:00-8:00".toList))).2.1.isSome = true ∧
    (parse_interval_smart (some ("9:00-8:00".toList))).2.2.1 = false :=
  duration_reject_fields _ ⟨660, by decide⟩

lemma not_contains_iff {α : Type} [BEq α] [LawfulBEq α] (l : List α) (x : α) :
    (!(l.contains x)) = true ↔ x ∉ l := by
  cases hc : l.contains x
  · have hm : x ∉ l := by
      intro hmem
      have ht : l.contains x = true := by simp [List.contains, List.elem_iff, hmem]
      rw [hc] at ht
      exact Bool.false_ne_true ht
    simp [hm]
  · have hm : x ∈ l := by
      have ht := hc
      simp [List.contains, List.elem_iff] at ht
      exact ht
    simp [hm]

/-- Claim C5: the day decoder tokenizes greedily (two characters for "Th",
"St", "Sn", otherwise one), maps tokens through the fixed table discarding
unmapped ones, deduplicates keeping first occurrences, and satisfies the
concrete examples of the claim; non-string input yields the empty list. -/
theorem decode_days_spec :
    (∀ (a b : Char) (rest : List Char),
      day_tokens (a :: b :: rest) =
        if [a, b] = ['T', 'h'] ∨ [a, b] = ['S', 't'] ∨ [a, b] = ['S', 'n'] then
          [a, b] :: day_tokens rest
        else [a] :: day_tokens (b :: rest)) ∧
    DAY_TOKEN_MAP ['M'] = some "Mon" ∧ DAY_TOKEN_MAP ['T'] = some "Tue" ∧
    DAY_TOKEN_MAP ['W'] = some "Wed" ∧ DAY_TOKEN_MAP ['T', 'h'] = some "Thu" ∧
    DAY_TOKEN_MAP ['F'] = some "Fri" ∧ DAY_TOKEN_MAP ['S', 't'] = some "Sat" ∧
    DAY_TOKEN_MAP ['S', 'n'] = some "Sun" ∧ DAY_TOKEN_MAP ['h'] = none ∧
    decode_days (some ("MTThF".toList)) = ["Mon", "Tue", "Thu", "Fri"] ∧
    decode_days (some ("StSn".toList)) = ["Sat", "Sun"] ∧
    decode_days (some ("MWM".toList)) = ["Mon", "Wed"] ∧
    decode_days (some ("".toList)) = [] ∧
    decode_days none = [] ∧
    ∀ c : List Char, (decode_days (some c)).Nodup := by
  refine ⟨fun a b rest => rfl, by decide, by decide, by decide, by decide, by decide,
    by decide, by decide, by decide, by decide, by decide, by decide, by decide,
    rfl, ?_⟩
  intro c
  unfold decode_days
  dsimp only
  exact nodup_dedupFirst _

/-- Claim C4: the availability query returns as occupied exactly the valid
rows whose weekday list contains the queried weekday and whose half-open
interval `[start_min, end_min)` contains `hour * 60` (order preserved), and a
hall label is available iff it occurs among the valid rows' halls and not
among the occupied rows' halls. -/
theorem get_availability_spec (rows : List NormRow) (wd : String) (hour : Int) :
    (get_availability rows wd hour).2 =
      rows.filter (fun r => r.day_list.contains wd &&
        (match r.start_min, r.end_min with
         | some a, some b => decide (a ≤ hour * 60) && decide (hour * 60 < b)
         | _, _ => false)) ∧
    ∀ lab : List Char,
      lab ∈ (get_availability rows wd hour).1 ↔
        (lab ∈ rows.map (fun r => r.hall) ∧
         lab ∉ ((get_availability rows wd hour).2.map (fun r => r.hall))) := by
  constructor
  · unfold get_availability
    dsimp only
    exact filter_filter_and _ _ rows
  · intro lab
    unfold get_availability
    dsimp only
    rw [List.mem_filter, mem_dedupFirst, not_contains_iff, mem_dedupFirst]

/-- Claim C6: when the three required columns are present, normalization
partitions the rows one-to-one: the lengths of the two outputs sum to the
input length, and every normalized row occurs in the two outputs together
exactly as often as in the normalized input. -/
theorem preprocess_partition (df : RawTable)
    (h : df.has_days = true ∧ df.has_class_times = true ∧ df.has_hall = true) :
    (preprocess_data df).2.1.length + (preprocess_data df).2.2.length
        = df.rows.length ∧
    ∀ nr : NormRow,
      (preprocess_data df).2.1.count nr + (preprocess_data df).2.2.count nr =
        (df.rows.map normalize_row).count nr := by
  obtain ⟨h1, h2, h3⟩ := h
  have hp : preprocess_data df =
      (none,
       (df.rows.map normalize_row).filter (fun r => decide (r.error_message = "")),
       (df.rows.map normalize_row).filter (fun r => !decide (r.error_message = ""))) := by
    unfold preprocess_data
    rw [h1, h2, h3]
    rfl
  rw [hp]
  dsimp only
  constructor
  · rw [filter_length_partition, List.length_map]
  · intro nr
    exact filter_count_partition _ _ nr

/-- Witness for `preprocess_partition` on a two-row table with one valid and
one invalid row. -/
theorem preprocess_partition_witness :
    (preprocess_data (RawTable.mk true true true
        [RawRow.mk (some ("MW".toList)) (some ("9:00-10:00".toList))
           (some ("A1".toList)),
         RawRow.mk (some ("F".toList)) (some ("TBA-1".toList))
           (some ("B2".toList))])).2.1.length +
      (preprocess_data (RawTable.mk true true true
        [RawRow.mk (some ("MW".toList)) (some ("9:00-10:00".toList))
           (some ("A1".toList)),
         RawRow.mk (some ("F".toList)) (some ("TBA-1".toList))
           (some ("B2".toList))])).2.2.length = 2 :=
  (preprocess_partition _ ⟨rfl, rfl, rfl⟩).1

/-- Claim C7: when any required column is missing, normalization surfaces the
single configuration error and returns two empty partitions. -/
theorem preprocess_missing_columns (df : RawTable)
    (h : df.has_days = false ∨ df.has_class_times = false ∨ df.has_hall = false) :
    preprocess_data df =
      (some "Dataset must contain columns: Days, Class_Times, Hall", [], []) := by
  unfold preprocess_data
  rcases h with h | h | h <;> rw [h] <;> simp

/-- Witness for `preprocess_missing_columns` on a table lacking the Days
column. -/
theorem preprocess_missing_columns_witness :
    preprocess_data (RawTable.mk false true true
        [RawRow.mk (some ("M".toList)) (some ("9:00-9:10".toList))
           (some ("H".toList))]) =
      (some "Dataset must contain columns: Days, Class_Times, Hall", [], []) :=
  preprocess_missing_columns _ (Or.inl rfl)

/-- Claim C8: a row whose Hall cell is missing (NaN) ends up with the hall
string "nan", not the sentinel "UNKNOWN": `astype(str)` turns NaN into the
string "nan" before `fillna("UNKNOWN")` can see it, so the fill never fires. -/
theorem hall_missing_becomes_nan :
    (normalize_row (RawRow.mk (some ("MW".toList)) (some ("9:00-10:00".toList))
        none)).hall = "nan".toList ∧
    "nan".toList ≠ "UNKNOWN".toList := by
  exact ⟨by decide, by decide⟩

/-- Claim C9 counterexample: a row rejected with "Duration too long (540 min)"
still has `duration = some 540` and `start_hour = some 9`, refuting that every
rejected row leaves the derived fields null. -/
theorem derived_fields_on_rejected_cex :
    (normalize_row (RawRow.mk (some ("MW".toList)) (some ("9:00-18:00".toList))
        (some ("A1".toList)))).error_message = "Duration too long (540 min)" ∧
    (normalize_row (RawRow.mk (some ("MW".toList)) (some ("9:00-18:00".toList))
        (some ("A1".toList)))).duration = some 540 ∧
    (normalize_row (RawRow.mk (some ("MW".toList)) (some ("9:00-18:00".toList))
        (some ("A1".toList)))).start_hour = some 9 := by
  exact ⟨by decide, by decide, by decide⟩

/-- Claim C9 (amended): the derived fields `duration` and `start_hour` of a
normalized row are set exactly when the time parse returned minute values,
i.e. when the parse was accepted or rejected with the "Duration too long"
reason; for the four fixed rejection reasons they are null. -/
theorem derived_fields_iff (r : RawRow) :
    ((normalize_row r).duration.isSome = true ↔
      ((normalize_row r).error_message = "" ∨
       ∃ d : Int, (normalize_row r).error_message =
         "Duration too long (" ++ toString d ++ " min)")) ∧
    ((normalize_row r).start_hour.isSome = true ↔
      ((normalize_row r).error_message = "" ∨
       ∃ d : Int, (normalize_row r).error_message =
         "Duration too long (" ++ toString d ++ " min)")) := by
  unfold normalize_row
  dsimp only
  rcases parse_shape (some (normalize_times (getCell (astype_str r.class_times)))) with
    ⟨hn1, hn2, _, hmsg⟩ | ⟨a, b, hs1, hs2, _, hcase⟩
  · rw [hn1, hn2]
    dsimp only
    rcases hmsg with h4 | h4 | h4 | h4 <;> rw [h4] <;>
      refine ⟨⟨fun hF => absurd hF (by simp), fun hR => ?_⟩,
              ⟨fun hF => absurd hF (by simp), fun hR => ?_⟩⟩ <;>
      all_goals
        rcases hR with hF | ⟨d, hF⟩
        · exact absurd hF (by decide)
        · exact absurd hF (ne_durStr_of_head (by decide) d)
  · rw [hs1, hs2]
    dsimp only
    rcases hcase with ⟨_, hmsg⟩ | ⟨_, _, hmsg⟩ <;> rw [hmsg]
    · exact ⟨⟨fun _ => Or.inl rfl, fun _ => rfl⟩,
             ⟨fun _ => Or.inl rfl, fun _ => rfl⟩⟩
    · exact ⟨⟨fun _ => Or.inr ⟨b - a, rfl⟩, fun _ => rfl⟩,
             ⟨fun _ => Or.inr ⟨b - a, rfl⟩, fun _ => rfl⟩⟩
